import Mathlib

/-!
A verification development for the path / executable-location utilities of
the pcap_write repository (glib shim `part_000` + `wsutil/filesystem.c`).

C strings are modelled as `List Char` holding the characters before the
terminating NUL; reading at an index past the end of the list yields the
terminator `nulChar`, exactly as a scan of the C string would.  Pointers
into a string are modelled as indices (`Nat`), and `NULL` results as
`Option`.

Note on configurations: the repository's `glib.h` contains
`#define G_OS_WIN32 _WIN32` followed by `#ifdef G_OS_WIN32` tests, so the
macro `G_OS_WIN32` is *defined* in every build configuration and the
"Windows" sections of `g_path_get_dirname` are always compiled, with
`G_DIR_SEPARATOR = '\\'` and `G_IS_DIR_SEPARATOR(c)` meaning `c == '\\'`
only.  `wsutil/filesystem.c` tests the real `_WIN32` macro instead, so it
does have a genuine POSIX configuration.
-/

/-- The C string terminator. -/
def nulChar : Char := Char.ofNat 0

/-- Read character `i` of a C string: past the end we see the terminator. -/
def cCharAt (s : List Char) (i : Nat) : Char := s.getD i nulChar

/-- Index of the last character satisfying `p`, if any (the result of a
backward scan over the whole string). -/
def lastIdxP (p : Char → Bool) : List Char → Option Nat
  | [] => none
  | a :: tl =>
    match lastIdxP p tl with
    | some i => some (i + 1)
    | none => if p a then some 0 else none

/-- `strrchr`: index of the last occurrence of `c` in `s`, if any. -/
def strrchrIdx (s : List Char) (c : Char) : Option Nat :=
  lastIdxP (fun a => a == c) s

/-- `strchr`: index of the first occurrence of `c` in `s`, if any. -/
def strchrIdx : List Char → Char → Option Nat
  | [], _ => none
  | a :: tl, c => if a = c then some 0 else (strchrIdx tl c).map (· + 1)

/-- The loop `while (base > file_name && G_IS_DIR_SEPARATOR(*base)) base--;`
of `g_path_get_dirname`, with `G_IS_DIR_SEPARATOR(c)` = `c == '\\'` (see the
header comment: the repository's `G_IS_DIR_SEPARATOR` only matches the
backslash). -/
def sepSkipBack (s : List Char) : Nat → Nat
  | 0 => 0
  | b + 1 => if cCharAt s (b + 1) = '\\' then sepSkipBack s b else b + 1

/-- The loop `while (*p && !G_IS_DIR_SEPARATOR(*p)) p++;` of
`g_path_get_dirname`: starting at `p`, skip forward over characters that are
neither the terminator nor `'\\'`. -/
def scanToSep (s : List Char) (p : Nat) : Nat :=
  p + ((s.drop p).takeWhile (fun a => !(a == nulChar) && !(a == '\\'))).length

/-- `g_path_get_dirname` from the glib shim (`src/unnamed/part_000`,
lines 55-147).  Input a non-NULL file name; the `G_OS_WIN32` sections are
always compiled (see header comment). -/
def g_path_get_dirname (file_name : List Char) : List Char :=
  -- base = strrchr(file_name, G_DIR_SEPARATOR); then the G_OS_WIN32 block
  -- replaces it by the later of base and strrchr(file_name, '/').
  let base0 :=
    match strrchrIdx file_name '\\', strrchrIdx file_name '/' with
    | none, q => q
    | some bq, some q => if q > bq then some q else some bq
    | some bq, none => some bq
  match base0 with
  | none =>
    if (cCharAt file_name 0).isAlpha ∧ cCharAt file_name 1 = ':' then
      [cCharAt file_name 0, ':', '.']
    else ['.']
  | some b0 =>
    let b := sepSkipBack file_name b0
    if b = 1 ∧ (cCharAt file_name 0).isAlpha ∧ cCharAt file_name 1 = ':' then
      file_name.take 3
    else if cCharAt file_name 0 = '\\' ∧ cCharAt file_name 1 = '\\' ∧
            cCharAt file_name 2 ≠ nulChar ∧ cCharAt file_name 2 ≠ '\\' ∧ 2 ≤ b then
      let p := scanToSep file_name 2
      if p = b + 1 then file_name ++ ['\\']
      else
        let b2 :=
          if cCharAt file_name p = '\\' then
            let p2 := scanToSep file_name (p + 1)
            if p2 = b + 1 then b + 1 else b
          else b
        file_name.take (b2 + 1)
    else file_name.take (b + 1)

/-! ## `wsutil/filesystem.c` (`src/wsutil/filesystem.h`, second half) -/

/-- `find_last_pathname_separator`, POSIX configuration (`#else` branch,
lines 201-204): `strrchr(path, '/')`. -/
def find_last_pathname_separator (path : List Char) : Option Nat :=
  strrchrIdx path '/'

/-- `find_last_pathname_separator`, `_WIN32` configuration (lines 182-200):
scan backwards from the terminator for `'\\'` or `'/'`; if none is found,
fall back on `strchr(path, ':')` (a drive letter). -/
def find_last_pathname_separator_win (path : List Char) : Option Nat :=
  match lastIdxP (fun c => c == '\\' || c == '/') path with
  | some i => some i
  | none => strchrIdx path ':'

/-- The C entry point of `find_last_pathname_separator` (POSIX
configuration) including its treatment of a NULL pathname: the function has
no NULL check and immediately calls `strrchr(path, '/')`, which has
undefined behaviour for a null pointer (its callers `get_basename` and
`get_dirname` assert `path != NULL` before calling).  `none` models `NULL`;
the undefined call is modelled as `Except.error ()`. -/
def find_last_pathname_separator_c (path : Option (List Char)) :
    Except Unit (Option Nat) :=
  match path with
  | none => Except.error ()
  | some s => Except.ok (find_last_pathname_separator s)

/-- `get_dirname` (lines 237-263), POSIX configuration.  The function is
destructive: it overwrites the last separator with `'\0'`, so the string it
returns is the prefix of `path` before that separator; with no separator it
returns NULL (`none`). -/
def get_dirname (path : List Char) : Option (List Char) :=
  match find_last_pathname_separator path with
  | none => none
  | some i => some (path.take i)

/-- `get_basename` (lines 210-230), POSIX configuration: the suffix after
the last separator, or the whole pathname when there is none. -/
def get_basename (path : List Char) : List Char :=
  match find_last_pathname_separator path with
  | none => path
  | some i => path.drop (i + 1)

/-- `errno` value `ENOENT` (no such file or directory). -/
def ENOENT : Nat := 2

/-- `errno` value `EACCES` (permission denied). -/
def EACCES : Nat := 13

/-- `errno` value `EISDIR` (is a directory). -/
def EISDIR : Nat := 21

/-- `errno` value `ESPIPE` (illegal seek; used to report a FIFO). -/
def ESPIPE : Nat := 29

/-- The `ws_stat64` system call is an external collaborator: it either
fails with an `errno` (`Except.error e`) or succeeds returning an
`st_mode` (`Except.ok mode`). -/
abbrev StatFn := List Char → Except Nat Nat

/-- `file_exists` (lines 1152-1166): NULL gives FALSE; otherwise FALSE
exactly when `ws_stat64` fails *and* `errno == ENOENT`, and TRUE in every
other case (success, or failure with any other `errno`). -/
def file_exists (stat : StatFn) (fname : Option (List Char)) : Bool :=
  match fname with
  | none => false
  | some f =>
    match stat f with
    | Except.error e => if e = ENOENT then false else true
    | Except.ok _ => true

/-- `test_for_directory` (lines 277-289): the errno on stat failure,
`EISDIR` for a directory, 0 otherwise.  `S_ISDIR(m)` is
`(m & 0170000) == 0040000`. -/
def test_for_directory (stat : StatFn) (path : List Char) : Nat :=
  match stat path with
  | Except.error e => e
  | Except.ok mode => if mode % 2 ^ 16 / 2 ^ 12 % 16 = 4 then EISDIR else 0

/-- `test_for_fifo` (lines 291-303): the errno on stat failure, `ESPIPE`
for a FIFO, 0 otherwise.  `S_ISFIFO(m)` is `(m & 0170000) == 0010000`. -/
def test_for_fifo (stat : StatFn) (path : List Char) : Nat :=
  match stat path with
  | Except.error e => e
  | Except.ok mode => if mode % 2 ^ 16 / 2 ^ 12 % 16 = 1 then ESPIPE else 0

/-! ## `g_strlcpy` (emulated version, `src/unnamed/part_000` lines 347-380) -/

/-- The copy loop `do { c = *s++; *d++ = c; if (c == 0) break; } while
(--n != 0);` of the emulated `g_strlcpy`, entered with `n ≥ 1`.  Returns
the bytes written to `dest`, the final source index (the C `s - src`), and
the final value of `n`. -/
def copyLoop (src : List Char) : Nat → Nat → List Char × Nat × Nat
  | 0, i => ([], i, 0)
  | n + 1, i =>
    let c := cCharAt src i
    if c = nulChar then ([c], i + 1, n + 1)
    else if n = 0 then ([c], i + 1, 0)
    else
      let r := copyLoop src n (i + 1)
      (c :: r.1, r.2.1, r.2.2)

/-- The loop `while (*s++) ;`: the index of the terminator at or after
`i`. -/
def scanToNul (s : List Char) (i : Nat) : Nat :=
  i + ((s.drop i).takeWhile (fun a => !(a == nulChar))).length

/-- The emulated `g_strlcpy` (`#else /* ! HAVE_STRLCPY */` branch).  Result:
the bytes written to `dest` in order (including the terminator, when one is
written) and the returned size `s - src - 1`. -/
def g_strlcpy (src : List Char) (dest_size : Nat) : List Char × Nat :=
  -- if (n != 0 && --n != 0) { copy loop }
  if dest_size = 0 then
    -- no copying; n == 0, but dest_size == 0 so no terminator either;
    -- while (*s++) ; then return s - src - 1
    ([], scanToNul src 0)
  else if dest_size - 1 = 0 then
    -- loop not entered, n == 0: terminate dest and traverse the source
    ([nulChar], scanToNul src 0)
  else
    let r := copyLoop src (dest_size - 1) 0
    if r.2.2 = 0 then
      -- ran out of room: terminate dest, traverse the rest of the source
      (r.1 ++ [nulChar], scanToNul src r.2.1)
    else
      -- the loop copied the terminator and broke out
      (r.1, r.2.1 - 1)

/-! ## ExecutableLocator: `init_progfile_dir` and friends (POSIX, non-Apple
configuration of `wsutil/filesystem.c`, lines 579-885 and 1007-1011) -/

/-- The process-wide state written by `init_progfile_dir`:
`static char *progfile_dir` and
`static gboolean running_in_build_directory_flag = FALSE`. -/
structure ProgState where
  progfile_dir : Option (List Char)
  running_in_build_directory_flag : Bool
deriving DecidableEq

/-- The state before `init_progfile_dir` runs: `progfile_dir` is NULL and
the build-directory flag is FALSE (its static initializer). -/
def init_state : ProgState := ⟨none, false⟩

/-- The external collaborators consumed by `init_progfile_dir` on a POSIX
build: the environment, the OS self-location mechanism
(`get_executable_path()`), the privilege predicate, `access(path, X_OK)`,
`pathconf`/`getcwd`, `strerror(errno)` text, and `ws_stat64`. -/
structure FsEnv where
  getenv : List Char → Option (List Char)
  exec_path : Option (List Char)
  special_privs : Bool
  access_x_ok : List Char → Bool
  pathconf_ok : Bool
  cwd : Option (List Char)
  errno_text : List Char
  stat : StatFn

/-- The name of the build-directory override environment variable. -/
def buildDirVarName : List Char := "WIRESHARK_RUN_FROM_BUILD_DIRECTORY".data

/-- The name of the search-path environment variable. -/
def pathVarName : List Char := "PATH".data

/-- Error message `"PATH isn't set"` (line 774). -/
def msgPathNotSet : List Char := "PATH isn\x27t set".data

/-- Error message `"\"%s\" not found in \"%s\""` (lines 766-767). -/
def msgNotFound (execname pathstr : List Char) : List Char :=
  "\"".data ++ execname ++ "\" not found in \"".data ++ pathstr ++ "\"".data

/-- Error message `"No / found in \"%s\""` (line 871). -/
def msgNoSlash (prog_pathname : List Char) : List Char :=
  "No / found in \"".data ++ prog_pathname ++ "\"".data

/-- Error message `"pathconf failed: %s\n"` (lines 707-708). -/
def msgPathconfFailed (env : FsEnv) : List Char :=
  "pathconf failed: ".data ++ env.errno_text ++ "\n".data

/-- Error message `"getcwd failed: %s\n"` (lines 717-718). -/
def msgGetcwdFailed (env : FsEnv) : List Char :=
  "getcwd failed: ".data ++ env.errno_text ++ "\n".data

/-- `execname`: the result of the OS self-location mechanism, or `arg0` if
it is unavailable (lines 672-678). -/
def execnameOf (env : FsEnv) (arg0 : List Char) : List Char :=
  match env.exec_path with
  | some e => e
  | none => arg0

/-- The `$PATH` search loop of `init_progfile_dir` (lines 733-761): walk
the colon-separated components of what remains of the path string, testing
`component ++ "/" ++ execname` for executability, stopping at the first
match.  The loop runs while `*path_start != '\0'`, so a set-but-empty
`PATH` makes no iterations at all. -/
def searchPathLoop (acc : List Char → Bool) (execname : List Char) :
    List Char → Option (List Char)
  | [] => none
  | a :: tl0 =>
    let comp := (a :: tl0).takeWhile (fun c => !(c == ':'))
    let path := comp ++ '/' :: execname
    if acc path then some path
    else
      match h : (a :: tl0).dropWhile (fun c => !(c == ':')) with
      | ':' :: tl2 => searchPathLoop acc execname tl2
      | _ => none
termination_by rest => rest.length
decreasing_by
  have key : ∀ l r : List Char,
      l.dropWhile (fun c => !(c == ':')) = ':' :: r → r.length < l.length := by
    intro l r hlr
    have hsuf : (l.dropWhile (fun c => !(c == ':'))).length ≤ l.length :=
      (List.dropWhile_suffix _).length_le
    rw [hlr] at hsuf
    simp only [List.length_cons] at hsuf
    omega
  exact key _ _ h

/-- The Absolutizing phase of `init_progfile_dir` (lines 690-776): classify
`execname` as absolute, relative-with-directory, or bare name, and produce
`prog_pathname` or a failure message. -/
def resolve_prog_pathname (env : FsEnv) (arg0 : List Char) :
    Except (List Char) (List Char) :=
  let execname := execnameOf env arg0
  if cCharAt execname 0 = '/' then
    Except.ok execname
  else if '/' ∈ execname then
    if env.pathconf_ok = false then Except.error (msgPathconfFailed env)
    else
      match env.cwd with
      | none => Except.error (msgGetcwdFailed env)
      | some curdir => Except.ok (curdir ++ '/' :: execname)
  else
    match env.getenv pathVarName with
    | none => Except.error msgPathNotSet
    | some pathstr =>
      match searchPathLoop env.access_x_ok execname pathstr with
      | some p => Except.ok p
      | none => Except.error (msgNotFound execname pathstr)

/-- The SplittingDirectory/bookkeeping/Cached phase of `init_progfile_dir`
(lines 778-875, non-Apple): strip the last component of `prog_pathname`
(failing defensively when there is no `'/'`), then, when not running with
special privileges and the parent component is `"/run"`, sniff for
`CMakeCache.txt` and set the build-directory flag; finally cache the
directory. -/
def split_and_cache (env : FsEnv) (prog_pathname : List Char)
    (st : ProgState) : Option (List Char) × ProgState :=
  match strrchrIdx prog_pathname '/' with
  | none => (some (msgNoSlash prog_pathname), st)
  | some i =>
    let dir := prog_pathname.take i
    let st2 :=
      match strrchrIdx dir '/' with
      | none => st
      | some j =>
        if env.special_privs = false then
          if dir.drop j = "/run".data then
            let cmake_file := dir.take j ++ "/CMakeCache.txt".data
            if file_exists env.stat (some cmake_file) then
              { st with running_in_build_directory_flag := true }
            else st
          else st
        else st
    (none, { st2 with progfile_dir := some dir })

/-- `init_progfile_dir` (POSIX branch, lines 647-875): the environment
override check, then Absolutizing, then SplittingDirectory/Cached.
Returns NULL (`none`) on success and an error message on failure, together
with the updated process-wide state. -/
def init_progfile_dir (env : FsEnv) (arg0 : List Char) (st : ProgState) :
    Option (List Char) × ProgState :=
  let st1 :=
    if (env.getenv buildDirVarName).isSome ∧ env.special_privs = false then
      { st with running_in_build_directory_flag := true }
    else st
  match resolve_prog_pathname env arg0 with
  | Except.error msg => (some msg, st1)
  | Except.ok prog_pathname => split_and_cache env prog_pathname st1

/-- `get_progfile_dir` (lines 881-885). -/
def get_progfile_dir (st : ProgState) : Option (List Char) :=
  st.progfile_dir

/-- `running_in_build_directory` (lines 1007-1011). -/
def running_in_build_directory (st : ProgState) : Bool :=
  st.running_in_build_directory_flag

/-! ## Auxiliary definitions for claim statements and witnesses -/

/-- A character usable inside a single Windows path component: not a
separator (`'\\'` or `'/'`) and not the terminator. -/
def okChar (a : Char) : Prop := a ≠ '\\' ∧ a ≠ '/' ∧ a ≠ nulChar

/-- A string free of separators and terminators. -/
def NoSep (x : List Char) : Prop := ∀ a ∈ x, okChar a

/-- A nonempty path component. -/
def IsComp (x : List Char) : Prop := x ≠ [] ∧ NoSep x

instance (a : Char) : Decidable (okChar a) := by
  unfold okChar
  infer_instance

instance (x : List Char) : Decidable (NoSep x) := by
  unfold NoSep
  exact List.decidableBAll _ x

instance (x : List Char) : Decidable (IsComp x) := by
  unfold IsComp
  infer_instance

/-- A stat oracle that always fails with `EACCES` (permission denied). -/
def statEaccesFn : StatFn := fun _ => Except.error EACCES

/-- A sample collaborator environment: nothing in the environment, no OS
self-location, no special privileges, nothing executable, empty filesystem. -/
def envSample : FsEnv :=
  { getenv := fun _ => none
    exec_path := none
    special_privs := false
    access_x_ok := fun _ => false
    pathconf_ok := true
    cwd := none
    errno_text := []
    stat := fun _ => Except.error ENOENT }

/-- A sample environment running with special privileges, with the
build-directory override set, a `run` parent component and an
always-succeeding stat (so every build-directory heuristic would fire if it
were consulted). -/
def envPriv : FsEnv :=
  { getenv := fun _ => some []
    exec_path := some "/b/run/app".data
    special_privs := true
    access_x_ok := fun _ => true
    pathconf_ok := true
    cwd := some "/c".data
    errno_text := []
    stat := fun _ => Except.ok 0 }

/-! ## Helper lemmas -/

theorem lastIdxP_eq_none (p : Char → Bool) :
    ∀ s : List Char, (∀ a ∈ s, p a = false) → lastIdxP p s = none
  | [], _ => rfl
  | a :: tl, h => by
    have htl := lastIdxP_eq_none p tl (fun x hx => h x (List.mem_cons_of_mem a hx))
    simp [lastIdxP, htl, h a (List.mem_cons_self a tl)]

theorem lastIdxP_append (p : Char → Bool) (l r : List Char) :
    lastIdxP p (l ++ r) =
      match lastIdxP p r with
      | some i => some (l.length + i)
      | none => lastIdxP p l := by
  induction l with
  | nil => cases h : lastIdxP p r <;> simp [h, lastIdxP]
  | cons a tl ih =>
    cases h : lastIdxP p r with
    | none =>
      simp only [h] at ih
      simp [lastIdxP, ih, h]
    | some i =>
      simp only [h] at ih
      simp only [List.cons_append, lastIdxP, List.append_eq]
      rw [ih]
      simp only [h, List.length_cons, Option.some.injEq]
      omega

theorem lastIdxP_concat_last (p : Char → Bool) (l r : List Char) (c : Char)
    (hc : p c = true) (hr : ∀ a ∈ r, p a = false) :
    lastIdxP p (l ++ c :: r) = some l.length := by
  rw [lastIdxP_append]
  have h1 : lastIdxP p (c :: r) = some 0 := by
    simp [lastIdxP, lastIdxP_eq_none p r hr, hc]
  simp [h1]

theorem strrchrIdx_eq_none (s : List Char) (c : Char) (h : c ∉ s) :
    strrchrIdx s c = none :=
  lastIdxP_eq_none _ s fun a ha => beq_eq_false_iff_ne.mpr fun e => h (e ▸ ha)

theorem strrchrIdx_concat (l r : List Char) (c : Char) (h : c ∉ r) :
    strrchrIdx (l ++ c :: r) c = some l.length :=
  lastIdxP_concat_last _ l r c (beq_self_eq_true c)
    fun a ha => beq_eq_false_iff_ne.mpr fun e => h (e ▸ ha)

theorem cCharAt_append_right (l r : List Char) (i : Nat) (h : l.length ≤ i) :
    cCharAt (l ++ r) i = cCharAt r (i - l.length) :=
  List.getD_append_right l r nulChar i h

theorem cCharAt_append_left (l r : List Char) (i : Nat) (h : i < l.length) :
    cCharAt (l ++ r) i = cCharAt l i :=
  List.getD_append l r nulChar i h

theorem cCharAt_mem (s : List Char) (i : Nat) (h : i < s.length) :
    cCharAt s i ∈ s := by
  unfold cCharAt
  rw [List.getD_eq_getElem s nulChar h]
  exact List.getElem_mem h

theorem takeWhile_append_all (p : Char → Bool) (l r : List Char)
    (h : ∀ a ∈ l, p a = true) : (l ++ r).takeWhile p = l ++ r.takeWhile p := by
  induction l with
  | nil => simp
  | cons a tl ih =>
    simp only [List.cons_append, List.takeWhile_cons,
      h a (List.mem_cons_self a tl), if_true]
    rw [ih fun x hx => h x (List.mem_cons_of_mem a hx)]

theorem scanToSep_drop (s comp rest : List Char) (p : Nat)
    (hd : s.drop p = comp ++ '\\' :: rest) (hcomp : NoSep comp) :
    scanToSep s p = p + comp.length := by
  unfold scanToSep
  rw [hd, takeWhile_append_all _ comp ('\\' :: rest) ?side]
  case side =>
    intro a ha
    have := hcomp a ha
    simp [okChar] at this
    simp [this.1, this.2.2]
  simp [List.takeWhile_cons]

theorem sepSkipBack_stop (s : List Char) (b : Nat) (h : cCharAt s b ≠ '\\') :
    sepSkipBack s b = b := by
  cases b with
  | zero => rfl
  | succ k => simp [sepSkipBack, h]

theorem sepSkipBack_step (s : List Char) (b : Nat) (h : cCharAt s (b + 1) = '\\') :
    sepSkipBack s (b + 1) = sepSkipBack s b := by
  simp [sepSkipBack, h]

/-! ## Claims C2, C3, C8, C9: the small directory/stat utilities -/

/-- Claim C2, counterexample: `get_dirname("/")` does *not* return `"/"`:
the single separator is overwritten with the terminator, so the result is
the empty string. -/
theorem c2_counterexample :
    get_dirname "/".data = some [] ∧ get_dirname "/".data ≠ some "/".data := by
  decide

/-- Claim C2 (amended): applied to a bare root separator, the destructive
`get_dirname` does find the separator (so it does not report "no
directory"), but it overwrites it, returning the empty string — not the
root itself. -/
theorem c2_amended_root_gives_empty :
    get_dirname "/".data = some [] ∧ get_dirname "/".data ≠ none := by
  decide

/-- Claim C3, counterexample: when `ws_stat64` fails with `EACCES`
(anything other than `ENOENT`), `file_exists` returns `true`, so a stat
error is *not* treated identically to absence of the file. -/
theorem c3_counterexample :
    statEaccesFn "p".data = Except.error EACCES ∧ EACCES ≠ ENOENT ∧
    file_exists statEaccesFn (some "p".data) = true :=
  ⟨rfl, by decide, rfl⟩

/-- Claim C3 (amended): `file_exists` returns `false` exactly for a NULL
pathname or for a stat failure with `errno == ENOENT` (which is what a
nonexistent or empty path produces); a stat success — regular file,
directory or fifo alike — or a stat failure with any *other* errno yields
`true`. -/
theorem c3_amended_file_exists_iff (stat : StatFn) (fname : Option (List Char)) :
    file_exists stat fname = false ↔
      fname = none ∨ ∃ f, fname = some f ∧ stat f = Except.error ENOENT := by
  cases fname with
  | none => simp [file_exists]
  | some f =>
    cases h : stat f with
    | error e =>
      by_cases he : e = ENOENT
      · subst he
        simp [file_exists, h]
      · simp [file_exists, h, he]
    | ok m => simp [file_exists, h]

/-- Claim C8: evaluating the root cases.  `g_path_get_dirname("/") = "/"`,
`g_path_get_dirname("nofile") = "."` and the strict `get_dirname` reports
"no directory" (NULL) for a separator-free name, as claimed; but
`g_path_get_dirname("/usr/bin/test")` returns `"/usr/bin/"` — with a
trailing slash — instead of the claimed (and self-documented) `"/usr/bin"`:
the always-compiled `G_OS_WIN32` scan accepts the `'/'` found by
`strrchr(file_name, '/')` as `base`, but the trim loop's
`G_IS_DIR_SEPARATOR` matches only `'\\'`, so the separator is never
stepped over. -/
theorem c8_root_cases :
    g_path_get_dirname "/".data = "/".data ∧
    g_path_get_dirname "nofile".data = ".".data ∧
    get_dirname "nofile".data = none ∧
    g_path_get_dirname "/usr/bin/test".data = "/usr/bin/".data ∧
    g_path_get_dirname "/usr/bin/test".data ≠ "/usr/bin".data := by
  decide

/-- Claim C9, counterexample: for a NULL pathname,
`find_last_pathname_separator` does not return "not found": it has no NULL
check and immediately calls `strrchr(NULL, '/')`, which is undefined
behaviour (modelled as an error). -/
theorem c9_counterexample :
    find_last_pathname_separator_c none = Except.error () ∧
    find_last_pathname_separator_c none ≠ Except.ok none :=
  ⟨rfl, fun h => nomatch h⟩

/-- Claim C9 (amended): for every *non-NULL* input the find-last-separator
operation has no error conditions, and the empty string yields "not found"
in both the POSIX and the Windows configuration; a NULL pathname, however,
is not handled by the function itself — its callers assert non-NULL before
calling it. -/
theorem c9_amended_nonnull_total :
    (∀ s : List Char, find_last_pathname_separator_c (some s) =
        Except.ok (find_last_pathname_separator s)) ∧
    find_last_pathname_separator [] = none ∧
    find_last_pathname_separator_win [] = none :=
  ⟨fun _ => rfl, rfl, rfl⟩

/-! ## Claims C4, C5, C6, C7: the ExecutableLocator -/

/-- Reduction of `split_and_cache` when the parent component of the
stripped directory is not `"/run"`: the state is only extended with the
cached directory. -/
theorem split_and_cache_not_run (env : FsEnv) (p : List Char) (st : ProgState)
    (i j : Nat) (hi : strrchrIdx p '/' = some i)
    (hj : strrchrIdx (p.take i) '/' = some j)
    (hrun : (p.take i).drop j ≠ "/run".data) :
    split_and_cache env p st =
      (none, { st with progfile_dir := some (p.take i) }) := by
  unfold split_and_cache
  rw [hi]
  simp only [hj]
  cases hs : env.special_privs <;> simp [hrun]

/-- Claim C4: when the candidate contains no separator, a *set* search
path (empty or not) in which no entry matches produces the descriptive
`"..." not found in "..."` message naming the candidate, while an *unset*
search-path variable produces the distinct `PATH isn't set` message. -/
theorem c4_distinct_path_failures (env : FsEnv) (arg0 : List Char)
    (st : ProgState) (pathstr : List Char)
    (hnosep : '/' ∉ execnameOf env arg0) :
    (env.getenv pathVarName = some pathstr →
      searchPathLoop env.access_x_ok (execnameOf env arg0) pathstr = none →
      (init_progfile_dir env arg0 st).1 =
        some (msgNotFound (execnameOf env arg0) pathstr)) ∧
    (env.getenv pathVarName = none →
      (init_progfile_dir env arg0 st).1 = some msgPathNotSet) ∧
    msgNotFound (execnameOf env arg0) pathstr ≠ msgPathNotSet := by
  have h0 : cCharAt (execnameOf env arg0) 0 ≠ '/' := by
    cases hE : execnameOf env arg0 with
    | nil => decide
    | cons a tl =>
      rw [hE] at hnosep
      show a ≠ '/'
      exact fun e => hnosep (e ▸ List.mem_cons_self a tl)
  refine ⟨?first, ?second, ?third⟩
  case first =>
    intro hset hsearch
    have hres : resolve_prog_pathname env arg0 =
        Except.error (msgNotFound (execnameOf env arg0) pathstr) := by
      unfold resolve_prog_pathname
      rw [if_neg h0, if_neg hnosep]
      simp only [hset, hsearch]
    unfold init_progfile_dir
    rw [hres]
  case second =>
    intro hunset
    have hres : resolve_prog_pathname env arg0 = Except.error msgPathNotSet := by
      unfold resolve_prog_pathname
      rw [if_neg h0, if_neg hnosep]
      simp only [hunset]
    unfold init_progfile_dir
    rw [hres]
  case third =>
    intro hEq
    have hh := congrArg (fun l => l.headD ' ') hEq
    have hcp : ('\x22' : Char) = 'P' := hh
    exact absurd hcp (by decide)

/-- Claim C5: with the OS self-location mechanism unavailable and the
build-directory override unset, initializing with the fallback argument
`/opt/app/bin/app` succeeds (returns NULL), after which `get_progfile_dir`
yields `/opt/app/bin` and `running_in_build_directory` is false. -/
theorem c5_end_to_end (env : FsEnv)
    (hexec : env.exec_path = none)
    (hvar : env.getenv buildDirVarName = none) :
    (init_progfile_dir env "/opt/app/bin/app".data init_state).1 = none ∧
    get_progfile_dir
      (init_progfile_dir env "/opt/app/bin/app".data init_state).2 =
      some "/opt/app/bin".data ∧
    running_in_build_directory
      (init_progfile_dir env "/opt/app/bin/app".data init_state).2 = false := by
  have hres : resolve_prog_pathname env "/opt/app/bin/app".data =
      Except.ok "/opt/app/bin/app".data := by
    unfold resolve_prog_pathname execnameOf
    rw [hexec]
    rfl
  have hsplit : split_and_cache env "/opt/app/bin/app".data init_state =
      (none, { init_state with
               progfile_dir := some "/opt/app/bin".data }) := by
    have h12 : "/opt/app/bin/app".data.take 12 = "/opt/app/bin".data := by decide
    have := split_and_cache_not_run env "/opt/app/bin/app".data init_state 12 8
      (by decide) (by rw [h12]; decide) (by rw [h12]; decide)
    rw [this, h12]
  unfold init_progfile_dir
  rw [hvar, hres]
  simp only [Option.isSome_none, Bool.false_eq_true, false_and, if_false]
  rw [hsplit]
  exact ⟨rfl, rfl, rfl⟩

/-- Claim C5 witness at the concrete sample environment. -/
theorem c5_witness :
    (envSample.exec_path = none ∧ envSample.getenv buildDirVarName = none) ∧
    (init_progfile_dir envSample "/opt/app/bin/app".data init_state).1 = none ∧
    get_progfile_dir
      (init_progfile_dir envSample "/opt/app/bin/app".data init_state).2 =
      some "/opt/app/bin".data ∧
    running_in_build_directory
      (init_progfile_dir envSample "/opt/app/bin/app".data init_state).2 = false :=
  ⟨⟨rfl, rfl⟩, c5_end_to_end envSample rfl rfl⟩

/-- Claim C6: if the pathname reaching the splitting phase contains no
`'/'`, `init_progfile_dir`'s splitting phase fails with the descriptive
message naming that pathname rather than silently succeeding, and the
process-wide state — in particular the cached `progfile_dir` read by
`get_progfile_dir` — is left exactly as it was. -/
theorem c6_no_separator_defensive (env : FsEnv) (prog_pathname : List Char)
    (st : ProgState) (h : '/' ∉ prog_pathname) :
    (split_and_cache env prog_pathname st).1 =
      some (msgNoSlash prog_pathname) ∧
    (split_and_cache env prog_pathname st).2 = st ∧
    get_progfile_dir (split_and_cache env prog_pathname st).2 =
      get_progfile_dir st := by
  have hn : strrchrIdx prog_pathname '/' = none := strrchrIdx_eq_none _ _ h
  unfold split_and_cache
  rw [hn]
  exact ⟨rfl, rfl, rfl⟩

/-- Claim C6 witness at a concrete slash-free pathname. -/
theorem c6_witness :
    '/' ∉ "foo".data ∧
    (split_and_cache envSample "foo".data init_state).1 =
      some (msgNoSlash "foo".data) ∧
    (split_and_cache envSample "foo".data init_state).2 = init_state ∧
    get_progfile_dir (split_and_cache envSample "foo".data init_state).2 =
      get_progfile_dir init_state :=
  ⟨by decide, c6_no_separator_defensive envSample "foo".data init_state (by decide)⟩

/-- Claim C7: whenever `started_with_special_privs()` reports true, the
build-directory heuristics are skipped entirely: starting from the
uninitialized state, after `init_progfile_dir` the flag read by
`running_in_build_directory` is still false, for *every* environment —
whatever the `WIRESHARK_RUN_FROM_BUILD_DIRECTORY` override, the parent
component, or the `CMakeCache.txt` marker would have said. -/
theorem split_and_cache_priv (env : FsEnv) (p : List Char) (st : ProgState)
    (hpriv : env.special_privs = true) :
    (split_and_cache env p st).2.running_in_build_directory_flag =
      st.running_in_build_directory_flag := by
  unfold split_and_cache
  cases h2 : strrchrIdx p '/' with
  | none => simp only [h2]
  | some i =>
    simp only [h2]
    cases h3 : strrchrIdx (List.take i p) '/' with
    | none => simp only [h3]
    | some j => simp [h3, hpriv]

theorem c7_special_privs_skip_heuristics (env : FsEnv) (arg0 : List Char)
    (hpriv : env.special_privs = true) :
    running_in_build_directory
      (init_progfile_dir env arg0 init_state).2 = false := by
  unfold init_progfile_dir
  have h1 : ¬((env.getenv buildDirVarName).isSome = true ∧
      env.special_privs = false) := by
    simp [hpriv]
  rw [if_neg h1]
  cases hr : resolve_prog_pathname env arg0 with
  | error msg => rfl
  | ok p =>
    show running_in_build_directory (split_and_cache env p init_state).2 = false
    have hcl := split_and_cache_priv env p init_state hpriv
    simpa [running_in_build_directory, init_state] using hcl

/-- Claim C7 witness: a privileged environment in which every heuristic
input is armed (override set, `run` parent, marker file present), yet the
flag stays false. -/
theorem c7_witness :
    envPriv.special_privs = true ∧
    running_in_build_directory
      (init_progfile_dir envPriv "app".data init_state).2 = false :=
  ⟨rfl, c7_special_privs_skip_heuristics envPriv "app".data rfl⟩

/-- Claim C4 witness: the sample environment (PATH unset) with the bare
candidate name `app` and an empty search-path string. -/
theorem c4_witness :
    '/' ∉ execnameOf envSample "app".data ∧
    ((envSample.getenv pathVarName = some [] →
      searchPathLoop envSample.access_x_ok (execnameOf envSample "app".data)
        [] = none →
      (init_progfile_dir envSample "app".data init_state).1 =
        some (msgNotFound (execnameOf envSample "app".data) [])) ∧
     (envSample.getenv pathVarName = none →
      (init_progfile_dir envSample "app".data init_state).1 =
        some msgPathNotSet) ∧
     msgNotFound (execnameOf envSample "app".data) [] ≠ msgPathNotSet) :=
  ⟨by decide,
   c4_distinct_path_failures envSample "app".data init_state [] (by decide)⟩

/-! ## Claim C10: the emulated `g_strlcpy` -/

theorem cCharAt_ne_nul (src : List Char) (i : Nat) (hnul : nulChar ∉ src)
    (h : i < src.length) : cCharAt src i ≠ nulChar :=
  fun e => hnul (e ▸ cCharAt_mem src i h)

theorem cCharAt_eq_nul_of_le (src : List Char) (i : Nat)
    (h : src.length ≤ i) : cCharAt src i = nulChar := by
  unfold cCharAt
  exact List.getD_eq_default src nulChar h

/-- The copy loop when the room `n` fits within the remaining source: it
copies exactly `n` characters and exits with `n == 0` (truncation). -/
theorem copyLoop_fits (src : List Char) (hnul : nulChar ∉ src) :
    ∀ n i, 1 ≤ n → i + n ≤ src.length →
      copyLoop src n i = ((src.drop i).take n, i + n, 0) := by
  intro n
  induction n with
  | zero => intro i h1 _; omega
  | succ m ih =>
    intro i _ hle
    have hi : i < src.length := by omega
    have hc : cCharAt src i = src[i] := List.getD_eq_getElem src nulChar hi
    have hcn : ¬(cCharAt src i = nulChar) := cCharAt_ne_nul src i hnul hi
    have hdrop : src.drop i = src[i] :: src.drop (i + 1) :=
      List.drop_eq_getElem_cons hi
    cases m with
    | zero =>
      rw [copyLoop]
      simp only [hcn, if_false, if_pos rfl]
      rw [hdrop, hc]
      rfl
    | succ k =>
      have hrec := ih (i + 1) (by omega) (by omega)
      rw [copyLoop]
      simp only [hcn, if_false, Nat.succ_ne_zero, hrec]
      rw [hdrop, hc]
      exact Prod.ext rfl
        (Prod.ext (by show i + 1 + (k + 1) = i + (k + 1 + 1); omega) rfl)

/-- The copy loop when the source (including its terminator) runs out
before the room does: it copies the rest of the source and the terminator
and breaks out with `n` still positive. -/
theorem copyLoop_overflow (src : List Char) (hnul : nulChar ∉ src) :
    ∀ n i, src.length - i < n → i ≤ src.length →
      copyLoop src n i =
        (src.drop i ++ [nulChar], src.length + 1, n - (src.length - i)) := by
  intro n
  induction n with
  | zero => intro i h1 _; omega
  | succ m ih =>
    intro i hlt hle
    rcases Nat.lt_or_ge i src.length with hi | hi
    · have hc : cCharAt src i = src[i] := List.getD_eq_getElem src nulChar hi
      have hcn : ¬(cCharAt src i = nulChar) := cCharAt_ne_nul src i hnul hi
      have hm : ¬(m = 0) := by omega
      have hrec := ih (i + 1) (by omega) (by omega)
      have hdrop : src.drop i = src[i] :: src.drop (i + 1) :=
        List.drop_eq_getElem_cons hi
      rw [copyLoop]
      simp only [hcn, if_false, hm, hrec]
      rw [hdrop, hc]
      exact Prod.ext rfl (Prod.ext rfl
        (by show m - (src.length - (i + 1)) = m + 1 - (src.length - i); omega))
    · have hieq : i = src.length := by omega
      have hc : cCharAt src i = nulChar := cCharAt_eq_nul_of_le src i hi
      rw [copyLoop]
      simp only [hc, if_pos rfl]
      subst hieq
      simp

theorem scanToNul_eq_length (src : List Char) (hnul : nulChar ∉ src) (i : Nat)
    (hi : i ≤ src.length) : scanToNul src i = src.length := by
  unfold scanToNul
  have hall : ∀ a ∈ src.drop i, (!(a == nulChar)) = true := by
    intro a ha
    have hm : a ∈ src := List.drop_subset i src ha
    have hne : a ≠ nulChar := fun e => hnul (e ▸ hm)
    simp [hne]
  rw [List.takeWhile_eq_self_iff.mpr hall, List.length_drop]
  omega

/-- The emulated `g_strlcpy` with a positive buffer always produces the
truncated copy plus a terminator and returns the full source length. -/
theorem g_strlcpy_eq (src : List Char) (dest_size : Nat)
    (hnul : nulChar ∉ src) (hpos : 0 < dest_size) :
    g_strlcpy src dest_size =
      (src.take (dest_size - 1) ++ [nulChar], src.length) := by
  rcases Nat.eq_or_lt_of_le hpos with h1 | h2
  · rw [← h1]
    show g_strlcpy src 1 = (src.take 0 ++ [nulChar], src.length)
    unfold g_strlcpy
    rw [if_neg (by omega), if_pos rfl,
      scanToNul_eq_length src hnul 0 (Nat.zero_le _)]
    simp
  · have hn1 : 1 ≤ dest_size - 1 := by omega
    rcases le_or_lt (dest_size - 1) src.length with hle | hgt
    · have hcl := copyLoop_fits src hnul (dest_size - 1) 0 hn1 (by omega)
      unfold g_strlcpy
      rw [if_neg (by omega), if_neg (by omega)]
      simp only [hcl, List.drop_zero, Nat.zero_add]
      rw [scanToNul_eq_length src hnul (dest_size - 1) hle]
      simp
    · have hcl := copyLoop_overflow src hnul (dest_size - 1) 0 (by omega)
        (Nat.zero_le _)
      unfold g_strlcpy
      rw [if_neg (by omega), if_neg (by omega)]
      simp only [hcl, List.drop_zero, Nat.sub_zero]
      rw [if_neg (by omega)]
      rw [List.take_of_length_le (by omega), Nat.add_sub_cancel]

/-- Claim C10: for every nul-terminated source and every buffer size, the
emulated `g_strlcpy` copies at most `dest_size - 1` characters,
nul-terminates whenever `dest_size > 0`, writes nothing when
`dest_size == 0`, always returns `strlen(src)`, and that return value is
`≥ dest_size` exactly when the copy was truncated. -/
theorem c10_g_strlcpy_contract (src : List Char) (dest_size : Nat)
    (hnul : nulChar ∉ src) :
    (g_strlcpy src dest_size).2 = src.length ∧
    (dest_size = 0 → (g_strlcpy src dest_size).1 = []) ∧
    (0 < dest_size →
      (g_strlcpy src dest_size).1 = src.take (dest_size - 1) ++ [nulChar] ∧
      (g_strlcpy src dest_size).1.length ≤ dest_size ∧
      (dest_size ≤ (g_strlcpy src dest_size).2 ↔
        src.take (dest_size - 1) ≠ src)) := by
  rcases Nat.eq_zero_or_pos dest_size with h0 | hpos
  · subst h0
    refine ⟨?_, fun _ => rfl, fun hc => absurd hc (by omega)⟩
    exact scanToNul_eq_length src hnul 0 (Nat.zero_le _)
  · have hform := g_strlcpy_eq src dest_size hnul hpos
    rw [hform]
    refine ⟨rfl, fun h0 => absurd h0 (by omega), fun _ => ⟨rfl, ?_, ?_⟩⟩
    · rw [List.length_append, List.length_take]
      simp only [List.length_singleton]
      omega
    · constructor
      · intro hds heq
        have hlen := congrArg List.length heq
        rw [List.length_take] at hlen
        omega
      · intro hne
        by_contra hnot
        push_neg at hnot
        exact hne (List.take_of_length_le (by omega))

/-- Claim C10 witness at `src = "abc"`, `dest_size = 3` (a truncating
copy). -/
theorem c10_witness :
    nulChar ∉ "abc".data ∧
    ((g_strlcpy "abc".data 3).2 = "abc".data.length ∧
     (3 = 0 → (g_strlcpy "abc".data 3).1 = []) ∧
     (0 < 3 →
       (g_strlcpy "abc".data 3).1 = "abc".data.take 2 ++ [nulChar] ∧
       (g_strlcpy "abc".data 3).1.length ≤ 3 ∧
       (3 ≤ (g_strlcpy "abc".data 3).2 ↔ "abc".data.take 2 ≠ "abc".data))) :=
  ⟨by decide, c10_g_strlcpy_contract "abc".data 3 (by decide)⟩

/-! ## Claim C1: the Windows drive/UNC table of `g_path_get_dirname` -/

theorem sepSkipBack_once (s : List Char) (n : Nat)
    (h1 : cCharAt s (n + 1) = '\\') (h2 : cCharAt s n ≠ '\\') :
    sepSkipBack s (n + 1) = n := by
  rw [sepSkipBack_step s n h1]
  exact sepSkipBack_stop s n h2

theorem cCharAt_junction (L R : List Char) (c : Char) :
    cCharAt (L ++ c :: R) L.length = c := by
  rw [cCharAt_append_right L (c :: R) L.length (Nat.le_refl _)]
  simp [cCharAt]

theorem cCharAt_junction' (s L R : List Char) (c : Char) (n : Nat)
    (hs : s = L ++ c :: R) (hn : n = L.length) : cCharAt s n = c := by
  subst hs
  subst hn
  exact cCharAt_junction L R c

theorem cCharAt_last_comp (s pre f rest : List Char) (n : Nat)
    (hs : s = pre ++ f ++ rest) (hf : f ≠ [])
    (hn : n = pre.length + f.length - 1) : cCharAt s n ∈ f := by
  subst hs
  subst hn
  have hlen : 0 < f.length := List.length_pos.mpr hf
  rw [List.append_assoc,
    cCharAt_append_right pre (f ++ rest) _ (by omega)]
  have h2 : pre.length + f.length - 1 - pre.length = f.length - 1 := by omega
  rw [h2, cCharAt_append_left f rest _ (by omega)]
  exact cCharAt_mem f _ (by omega)

/-- Table row `X:\foo` (and, with `foo = []`, row `X:\`): the result is
`X:\` with the slash included. -/
theorem dirname_drive_child (c : Char) (foo : List Char)
    (hc : c.isAlpha = true) (hfoo : NoSep foo) :
    g_path_get_dirname (c :: ':' :: '\\' :: foo) = [c, ':', '\\'] := by
  have hbsnot : '\\' ∉ foo := fun hin => (hfoo '\\' hin).1 rfl
  have hbs : strrchrIdx (c :: ':' :: '\\' :: foo) '\\' = some 2 := by
    have h := strrchrIdx_concat [c, ':'] foo '\\' hbsnot
    simpa using h
  have hcslash : c ≠ '/' := fun e => by
    rw [e] at hc
    exact absurd hc (by decide)
  have hq : strrchrIdx (c :: ':' :: '\\' :: foo) '/' = none := by
    apply strrchrIdx_eq_none
    simp only [List.mem_cons, not_or]
    exact ⟨fun e => hcslash e.symm, by decide, by decide,
      fun hin => (hfoo '/' hin).2.1 rfl⟩
  unfold g_path_get_dirname
  simp only [hbs, hq]
  have hb : sepSkipBack (c :: ':' :: '\\' :: foo) 2 = 1 := rfl
  simp only [hb]
  rw [if_pos ⟨trivial, hc, rfl⟩]
  rfl

/-- Table row `X:foo` (drive letter, no separator): the result is `X:.`. -/
theorem dirname_drive_relative (c : Char) (foo : List Char)
    (hc : c.isAlpha = true) (hfoo : NoSep foo) :
    g_path_get_dirname (c :: ':' :: foo) = [c, ':', '.'] := by
  have hcbs : c ≠ '\\' := fun e => by
    rw [e] at hc
    exact absurd hc (by decide)
  have hcslash : c ≠ '/' := fun e => by
    rw [e] at hc
    exact absurd hc (by decide)
  have h1 : strrchrIdx (c :: ':' :: foo) '\\' = none := by
    apply strrchrIdx_eq_none
    simp only [List.mem_cons, not_or]
    exact ⟨fun e => hcbs e.symm, by decide, fun hin => (hfoo '\\' hin).1 rfl⟩
  have h2 : strrchrIdx (c :: ':' :: foo) '/' = none := by
    apply strrchrIdx_eq_none
    simp only [List.mem_cons, not_or]
    exact ⟨fun e => hcslash e.symm, by decide, fun hin => (hfoo '/' hin).2.1 rfl⟩
  unfold g_path_get_dirname
  simp only [h1, h2]
  rw [if_pos ⟨hc, rfl⟩]
  rfl

/-- Table row "no separator and no drive letter": the result is `.`. -/
theorem dirname_no_sep_dot (s : List Char)
    (h1 : '\\' ∉ s) (h2 : '/' ∉ s)
    (h3 : ¬((cCharAt s 0).isAlpha = true ∧ cCharAt s 1 = ':')) :
    g_path_get_dirname s = ['.'] := by
  unfold g_path_get_dirname
  simp only [strrchrIdx_eq_none s '\\' h1, strrchrIdx_eq_none s '/' h2]
  rw [if_neg h3]

/-- Table row `\\server\share` (UNC root, no trailing component): a slash
is appended, giving `\\server\share\`. -/
theorem dirname_unc_root (sv sh : List Char) (hsv : IsComp sv)
    (hsh : IsComp sh) :
    g_path_get_dirname ('\\' :: '\\' :: (sv ++ '\\' :: sh)) =
      ('\\' :: '\\' :: (sv ++ '\\' :: sh)) ++ ['\\'] := by
  have hsvlen : 0 < sv.length := List.length_pos.mpr hsv.1
  have hshbs : '\\' ∉ sh := fun hin => (hsh.2 '\\' hin).1 rfl
  have hsplit : ('\\' :: '\\' :: (sv ++ '\\' :: sh)) =
      ('\\' :: '\\' :: sv) ++ '\\' :: sh := by simp
  have hbs : strrchrIdx ('\\' :: '\\' :: (sv ++ '\\' :: sh)) '\\' =
      some (sv.length + 2) := by
    rw [hsplit, strrchrIdx_concat _ _ _ hshbs]
    simp only [List.length_cons, Option.some.injEq] <;> omega
  have hq : strrchrIdx ('\\' :: '\\' :: (sv ++ '\\' :: sh)) '/' = none := by
    apply strrchrIdx_eq_none
    intro hin
    simp only [List.mem_cons, List.mem_append] at hin
    rcases hin with h | h | h | h | h
    · exact absurd h (by decide)
    · exact absurd h (by decide)
    · exact (hsv.2 '/' h).2.1 rfl
    · exact absurd h (by decide)
    · exact (hsh.2 '/' h).2.1 rfl
  have hb : sepSkipBack ('\\' :: '\\' :: (sv ++ '\\' :: sh)) (sv.length + 2) =
      sv.length + 1 := by
    show sepSkipBack ('\\' :: '\\' :: (sv ++ '\\' :: sh)) ((sv.length + 1) + 1) =
      sv.length + 1
    apply sepSkipBack_once
    · exact cCharAt_junction' _ ('\\' :: '\\' :: sv) sh '\\' _ hsplit
        (by simp only [List.length_cons] <;> omega)
    · have hmem : cCharAt ('\\' :: '\\' :: (sv ++ '\\' :: sh)) (sv.length + 1) ∈ sv :=
        cCharAt_last_comp _ ['\\', '\\'] sv ('\\' :: sh) _ (by simp) hsv.1
          (by simp only [List.length_cons, List.length_nil]; omega)
      exact (hsv.2 _ hmem).1
  have hmem2 : cCharAt ('\\' :: '\\' :: (sv ++ '\\' :: sh)) 2 ∈ sv := by
    show cCharAt (sv ++ '\\' :: sh) 0 ∈ sv
    rw [cCharAt_append_left sv _ 0 hsvlen]
    exact cCharAt_mem sv 0 hsvlen
  have hp : scanToSep ('\\' :: '\\' :: (sv ++ '\\' :: sh)) 2 = 2 + sv.length :=
    scanToSep_drop _ sv sh 2 rfl hsv.2
  unfold g_path_get_dirname
  simp only [hbs, hq, hb, hp]
  rw [if_neg (fun hcon => absurd hcon.1 (by omega))]
  rw [if_pos ⟨rfl, rfl, (hsv.2 _ hmem2).2.2, (hsv.2 _ hmem2).1, by omega⟩]
  rw [if_pos (by omega : 2 + sv.length = sv.length + 1 + 1)]

/-- Table row `\\server\share\foo` (UNC root plus one child): the slash
after the share is kept, giving `\\server\share\`. -/
theorem dirname_unc_child (sv sh f : List Char) (hsv : IsComp sv)
    (hsh : IsComp sh) (hf : IsComp f) :
    g_path_get_dirname ('\\' :: '\\' :: (sv ++ '\\' :: (sh ++ '\\' :: f))) =
      '\\' :: '\\' :: (sv ++ '\\' :: (sh ++ ['\\'])) := by
  have hsvlen : 0 < sv.length := List.length_pos.mpr hsv.1
  have hshlen : 0 < sh.length := List.length_pos.mpr hsh.1
  have hfbs : '\\' ∉ f := fun hin => (hf.2 '\\' hin).1 rfl
  have hsplit : ('\\' :: '\\' :: (sv ++ '\\' :: (sh ++ '\\' :: f))) =
      ('\\' :: '\\' :: (sv ++ '\\' :: sh)) ++ '\\' :: f := by simp
  have hbs : strrchrIdx ('\\' :: '\\' :: (sv ++ '\\' :: (sh ++ '\\' :: f))) '\\' =
      some (sv.length + sh.length + 3) := by
    rw [hsplit, strrchrIdx_concat _ _ _ hfbs]
    simp only [List.length_cons, List.length_append, Option.some.injEq]
    omega
  have hq : strrchrIdx ('\\' :: '\\' :: (sv ++ '\\' :: (sh ++ '\\' :: f))) '/' =
      none := by
    apply strrchrIdx_eq_none
    intro hin
    simp only [List.mem_cons, List.mem_append] at hin
    rcases hin with h | h | h | h | h | h | h
    · exact absurd h (by decide)
    · exact absurd h (by decide)
    · exact (hsv.2 '/' h).2.1 rfl
    · exact absurd h (by decide)
    · exact (hsh.2 '/' h).2.1 rfl
    · exact absurd h (by decide)
    · exact (hf.2 '/' h).2.1 rfl
  have hb : sepSkipBack ('\\' :: '\\' :: (sv ++ '\\' :: (sh ++ '\\' :: f)))
      (sv.length + sh.length + 3) = sv.length + sh.length + 2 := by
    show sepSkipBack ('\\' :: '\\' :: (sv ++ '\\' :: (sh ++ '\\' :: f)))
      ((sv.length + sh.length + 2) + 1) = sv.length + sh.length + 2
    apply sepSkipBack_once
    · exact cCharAt_junction' _ ('\\' :: '\\' :: (sv ++ '\\' :: sh)) f '\\' _
        hsplit (by simp only [List.length_cons, List.length_append]; omega)
    · have hmem : cCharAt ('\\' :: '\\' :: (sv ++ '\\' :: (sh ++ '\\' :: f)))
          (sv.length + sh.length + 2) ∈ sh :=
        cCharAt_last_comp _ ('\\' :: '\\' :: sv ++ ['\\']) sh ('\\' :: f) _
          (by simp) hsh.1
          (by simp only [List.length_cons, List.length_append, List.length_nil]
              omega)
      exact (hsh.2 _ hmem).1
  have hmem2 : cCharAt ('\\' :: '\\' :: (sv ++ '\\' :: (sh ++ '\\' :: f))) 2 ∈ sv := by
    show cCharAt (sv ++ '\\' :: (sh ++ '\\' :: f)) 0 ∈ sv
    rw [cCharAt_append_left sv _ 0 hsvlen]
    exact cCharAt_mem sv 0 hsvlen
  have hp : scanToSep ('\\' :: '\\' :: (sv ++ '\\' :: (sh ++ '\\' :: f))) 2 =
      2 + sv.length :=
    scanToSep_drop _ sv (sh ++ '\\' :: f) 2 rfl hsv.2
  have hjun2 : cCharAt ('\\' :: '\\' :: (sv ++ '\\' :: (sh ++ '\\' :: f)))
      (2 + sv.length) = '\\' :=
    cCharAt_junction' _ ('\\' :: '\\' :: sv) (sh ++ '\\' :: f) '\\' _ (by simp)
      (by simp only [List.length_cons]; omega)
  have hdrop3 : ('\\' :: '\\' :: (sv ++ '\\' :: (sh ++ '\\' :: f))).drop
      (2 + sv.length + 1) = sh ++ '\\' :: f := by
    have he : ('\\' :: '\\' :: (sv ++ '\\' :: (sh ++ '\\' :: f))) =
        ('\\' :: '\\' :: sv ++ ['\\']) ++ (sh ++ '\\' :: f) := by simp
    rw [he, List.drop_left'
      (by simp only [List.length_cons, List.length_append, List.length_nil]
          omega)]
  have hp2 : scanToSep ('\\' :: '\\' :: (sv ++ '\\' :: (sh ++ '\\' :: f)))
      (2 + sv.length + 1) = 2 + sv.length + 1 + sh.length :=
    scanToSep_drop _ sh f (2 + sv.length + 1) hdrop3 hsh.2
  unfold g_path_get_dirname
  simp only [hbs, hq, hb, hp]
  rw [if_neg (fun hcon => absurd hcon.1 (by omega))]
  rw [if_pos ⟨rfl, rfl, (hsv.2 _ hmem2).2.2, (hsv.2 _ hmem2).1, by omega⟩]
  rw [if_neg (by omega : ¬(2 + sv.length = sv.length + sh.length + 2 + 1))]
  rw [if_pos hjun2]
  simp only [hp2]
  rw [if_pos (by omega : 2 + sv.length + 1 + sh.length =
    sv.length + sh.length + 2 + 1)]
  have hfin : ('\\' :: '\\' :: (sv ++ '\\' :: (sh ++ '\\' :: f))) =
      ('\\' :: '\\' :: (sv ++ '\\' :: (sh ++ ['\\']))) ++ f := by simp
  rw [hfin, List.take_left'
    (by simp only [List.length_cons, List.length_append, List.length_nil]
        omega)]

/-- Table row `\\server\share\foo\bar`: normal truncation to
`\\server\share\foo`. -/
theorem dirname_unc_deep (sv sh f bb : List Char) (hsv : IsComp sv)
    (hsh : IsComp sh) (hf : IsComp f) (hbb : IsComp bb) :
    g_path_get_dirname
        ('\\' :: '\\' :: (sv ++ '\\' :: (sh ++ '\\' :: (f ++ '\\' :: bb)))) =
      '\\' :: '\\' :: (sv ++ '\\' :: (sh ++ '\\' :: f)) := by
  have hsvlen : 0 < sv.length := List.length_pos.mpr hsv.1
  have hshlen : 0 < sh.length := List.length_pos.mpr hsh.1
  have hflen : 0 < f.length := List.length_pos.mpr hf.1
  have hbbbs : '\\' ∉ bb := fun hin => (hbb.2 '\\' hin).1 rfl
  have hsplit :
      ('\\' :: '\\' :: (sv ++ '\\' :: (sh ++ '\\' :: (f ++ '\\' :: bb)))) =
      ('\\' :: '\\' :: (sv ++ '\\' :: (sh ++ '\\' :: f))) ++ '\\' :: bb := by
    simp
  have hbs : strrchrIdx
      ('\\' :: '\\' :: (sv ++ '\\' :: (sh ++ '\\' :: (f ++ '\\' :: bb)))) '\\' =
      some (sv.length + sh.length + f.length + 4) := by
    rw [hsplit, strrchrIdx_concat _ _ _ hbbbs]
    simp only [List.length_cons, List.length_append, Option.some.injEq] <;> omega
  have hq : strrchrIdx
      ('\\' :: '\\' :: (sv ++ '\\' :: (sh ++ '\\' :: (f ++ '\\' :: bb)))) '/' =
      none := by
    apply strrchrIdx_eq_none
    intro hin
    simp only [List.mem_cons, List.mem_append] at hin
    rcases hin with h | h | h | h | h | h | h | h | h
    · exact absurd h (by decide)
    · exact absurd h (by decide)
    · exact (hsv.2 '/' h).2.1 rfl
    · exact absurd h (by decide)
    · exact (hsh.2 '/' h).2.1 rfl
    · exact absurd h (by decide)
    · exact (hf.2 '/' h).2.1 rfl
    · exact absurd h (by decide)
    · exact (hbb.2 '/' h).2.1 rfl
  have hb : sepSkipBack
      ('\\' :: '\\' :: (sv ++ '\\' :: (sh ++ '\\' :: (f ++ '\\' :: bb))))
      (sv.length + sh.length + f.length + 4) =
      sv.length + sh.length + f.length + 3 := by
    show sepSkipBack
      ('\\' :: '\\' :: (sv ++ '\\' :: (sh ++ '\\' :: (f ++ '\\' :: bb))))
      ((sv.length + sh.length + f.length + 3) + 1) =
      sv.length + sh.length + f.length + 3
    apply sepSkipBack_once
    · exact cCharAt_junction' _
        ('\\' :: '\\' :: (sv ++ '\\' :: (sh ++ '\\' :: f))) bb '\\' _ hsplit
        (by simp only [List.length_cons, List.length_append] <;> omega)
    · have hmem : cCharAt
          ('\\' :: '\\' :: (sv ++ '\\' :: (sh ++ '\\' :: (f ++ '\\' :: bb))))
          (sv.length + sh.length + f.length + 3) ∈ f :=
        cCharAt_last_comp _ ('\\' :: '\\' :: sv ++ '\\' :: sh ++ ['\\']) f
          ('\\' :: bb) _ (by simp) hf.1
          (by simp only [List.length_cons, List.length_append, List.length_nil]
              omega)
      exact (hf.2 _ hmem).1
  have hmem2 : cCharAt
      ('\\' :: '\\' :: (sv ++ '\\' :: (sh ++ '\\' :: (f ++ '\\' :: bb)))) 2 ∈
      sv := by
    show cCharAt (sv ++ '\\' :: (sh ++ '\\' :: (f ++ '\\' :: bb))) 0 ∈ sv
    rw [cCharAt_append_left sv _ 0 hsvlen]
    exact cCharAt_mem sv 0 hsvlen
  have hp : scanToSep
      ('\\' :: '\\' :: (sv ++ '\\' :: (sh ++ '\\' :: (f ++ '\\' :: bb)))) 2 =
      2 + sv.length :=
    scanToSep_drop _ sv (sh ++ '\\' :: (f ++ '\\' :: bb)) 2 rfl hsv.2
  have hjun2 : cCharAt
      ('\\' :: '\\' :: (sv ++ '\\' :: (sh ++ '\\' :: (f ++ '\\' :: bb))))
      (2 + sv.length) = '\\' :=
    cCharAt_junction' _ ('\\' :: '\\' :: sv)
      (sh ++ '\\' :: (f ++ '\\' :: bb)) '\\' _ (by simp)
      (by simp only [List.length_cons] <;> omega)
  have hdrop3 :
      ('\\' :: '\\' :: (sv ++ '\\' :: (sh ++ '\\' :: (f ++ '\\' :: bb)))).drop
      (2 + sv.length + 1) = sh ++ '\\' :: (f ++ '\\' :: bb) := by
    have he :
        ('\\' :: '\\' :: (sv ++ '\\' :: (sh ++ '\\' :: (f ++ '\\' :: bb)))) =
        ('\\' :: '\\' :: sv ++ ['\\']) ++ (sh ++ '\\' :: (f ++ '\\' :: bb)) := by
      simp
    rw [he, List.drop_left'
      (by simp only [List.length_cons, List.length_append, List.length_nil]
          omega)]
  have hp2 : scanToSep
      ('\\' :: '\\' :: (sv ++ '\\' :: (sh ++ '\\' :: (f ++ '\\' :: bb))))
      (2 + sv.length + 1) = 2 + sv.length + 1 + sh.length :=
    scanToSep_drop _ sh (f ++ '\\' :: bb) (2 + sv.length + 1) hdrop3 hsh.2
  unfold g_path_get_dirname
  simp only [hbs, hq, hb, hp]
  rw [if_neg (fun hcon => absurd hcon.1 (by omega))]
  rw [if_pos ⟨rfl, rfl, (hsv.2 _ hmem2).2.2, (hsv.2 _ hmem2).1, by omega⟩]
  rw [if_neg (by omega :
    ¬(2 + sv.length = sv.length + sh.length + f.length + 3 + 1))]
  rw [if_pos hjun2]
  simp only [hp2]
  rw [if_neg (by omega : ¬(2 + sv.length + 1 + sh.length =
    sv.length + sh.length + f.length + 3 + 1))]
  have hfin :
      ('\\' :: '\\' :: (sv ++ '\\' :: (sh ++ '\\' :: (f ++ '\\' :: bb)))) =
      ('\\' :: '\\' :: (sv ++ '\\' :: (sh ++ '\\' :: f))) ++ '\\' :: bb := by
    simp
  rw [hfin, List.take_left'
    (by simp only [List.length_cons, List.length_append]
        omega)]

/-- Claim C1: on Windows builds `g_path_get_dirname` reproduces the
drive/UNC edge-case table exactly — `X:\foo` and `X:\` give `X:\` (slash
included), `\\server\share` and `\\server\share\foo` give
`\\server\share\` (trailing slash), `\\server\share\foo\bar` gives
`\\server\share\foo`, a path with no separator and no drive letter gives
`.`, and a drive-letter-only relative reference `X:foo` gives `X:.` —
for every alphabetic drive letter and all separator-free components. -/
theorem c1_windows_dirname_table
    (c : Char) (foo s sv sh f bb : List Char)
    (hc : c.isAlpha = true) (hfoo : NoSep foo)
    (hsv : IsComp sv) (hsh : IsComp sh) (hf : IsComp f) (hbb : IsComp bb)
    (hs1 : '\\' ∉ s) (hs2 : '/' ∉ s)
    (hs3 : ¬((cCharAt s 0).isAlpha = true ∧ cCharAt s 1 = ':')) :
    g_path_get_dirname (c :: ':' :: '\\' :: foo) = [c, ':', '\\'] ∧
    g_path_get_dirname ('\\' :: '\\' :: (sv ++ '\\' :: sh)) =
      ('\\' :: '\\' :: (sv ++ '\\' :: sh)) ++ ['\\'] ∧
    g_path_get_dirname ('\\' :: '\\' :: (sv ++ '\\' :: (sh ++ '\\' :: f))) =
      '\\' :: '\\' :: (sv ++ '\\' :: (sh ++ ['\\'])) ∧
    g_path_get_dirname
        ('\\' :: '\\' :: (sv ++ '\\' :: (sh ++ '\\' :: (f ++ '\\' :: bb)))) =
      '\\' :: '\\' :: (sv ++ '\\' :: (sh ++ '\\' :: f)) ∧
    g_path_get_dirname s = ['.'] ∧
    g_path_get_dirname (c :: ':' :: foo) = [c, ':', '.'] :=
  ⟨dirname_drive_child c foo hc hfoo,
   dirname_unc_root sv sh hsv hsh,
   dirname_unc_child sv sh f hsv hsh hf,
   dirname_unc_deep sv sh f bb hsv hsh hf hbb,
   dirname_no_sep_dot s hs1 hs2 hs3,
   dirname_drive_relative c foo hc hfoo⟩

/-- Claim C1 witness: the table at `C:`, `server`, `share`, `foo`, `bar`,
`nofile`. -/
theorem c1_witness :
    (Char.isAlpha 'C' = true ∧ NoSep "foo".data ∧ IsComp "server".data ∧
     IsComp "share".data ∧ IsComp "foo".data ∧ IsComp "bar".data ∧
     '\\' ∉ "nofile".data ∧ '/' ∉ "nofile".data ∧
     ¬((cCharAt "nofile".data 0).isAlpha = true ∧
       cCharAt "nofile".data 1 = ':')) ∧
    (g_path_get_dirname ('C' :: ':' :: '\\' :: "foo".data) =
      ['C', ':', '\\'] ∧
     g_path_get_dirname ('\\' :: '\\' :: ("server".data ++ '\\' :: "share".data)) =
      ('\\' :: '\\' :: ("server".data ++ '\\' :: "share".data)) ++ ['\\'] ∧
     g_path_get_dirname
        ('\\' :: '\\' :: ("server".data ++ '\\' :: ("share".data ++ '\\' :: "foo".data))) =
      '\\' :: '\\' :: ("server".data ++ '\\' :: ("share".data ++ ['\\'])) ∧
     g_path_get_dirname
        ('\\' :: '\\' :: ("server".data ++ '\\' ::
          ("share".data ++ '\\' :: ("foo".data ++ '\\' :: "bar".data)))) =
      '\\' :: '\\' :: ("server".data ++ '\\' :: ("share".data ++ '\\' :: "foo".data)) ∧
     g_path_get_dirname "nofile".data = ['.'] ∧
     g_path_get_dirname ('C' :: ':' :: "foo".data) = ['C', ':', '.']) :=
  ⟨⟨by decide, by decide, by decide, by decide, by decide, by decide,
    by decide, by decide, by decide⟩,
   c1_windows_dirname_table 'C' "foo".data "nofile".data "server".data
     "share".data "foo".data "bar".data (by decide) (by decide) (by decide)
     (by decide) (by decide) (by decide) (by decide) (by decide) (by decide)⟩

/-- Every path produced by the `$PATH` search loop is of the form
`component ++ "/" ++ execname` and therefore contains a separator. -/
theorem searchPathLoop_has_sep (acc : List Char → Bool) (ex : List Char) :
    ∀ ps p, searchPathLoop acc ex ps = some p → '/' ∈ p := by
  have key : ∀ n ps p, ps.length ≤ n →
      searchPathLoop acc ex ps = some p → '/' ∈ p := by
    intro n
    induction n with
    | zero =>
      intro ps p hlen h
      have hps : ps = [] := List.length_eq_zero.mp (Nat.le_zero.mp hlen)
      subst hps
      simp [searchPathLoop] at h
    | succ m ih =>
      intro ps p hlen h
      cases ps with
      | nil => simp [searchPathLoop] at h
      | cons a tl0 =>
        rw [searchPathLoop] at h
        by_cases hacc :
            acc ((a :: tl0).takeWhile (fun c => !(c == ':')) ++ '/' :: ex) = true
        · rw [if_pos hacc] at h
          obtain rfl := Option.some.inj h
          simp
        · rw [if_neg hacc] at h
          split at h
          · rename_i tl2 hmatch
            have hlt : tl2.length < (a :: tl0).length := by
              have hsuf : ((a :: tl0).dropWhile (fun c => !(c == ':'))).length ≤
                  (a :: tl0).length := (List.dropWhile_suffix _).length_le
              rw [hmatch] at hsuf
              simp only [List.length_cons] at hsuf ⊢
              omega
            exact ih tl2 p (by simp only [List.length_cons] at hlen hlt ⊢; omega) h
          · exact absurd h (by simp)
  exact fun ps p => key ps.length ps p (Nat.le_refl _)

/-- Companion to claim C6: the Absolutizing phase can in fact never hand the
splitting phase a pathname without a separator — every successful
`resolve_prog_pathname` result contains `'/'` — which is why the spec calls
the no-separator failure defensive/unreachable. -/
theorem resolve_prog_pathname_has_sep (env : FsEnv) (arg0 p : List Char)
    (h : resolve_prog_pathname env arg0 = Except.ok p) : '/' ∈ p := by
  unfold resolve_prog_pathname at h
  by_cases h0 : cCharAt (execnameOf env arg0) 0 = '/'
  · rw [if_pos h0] at h
    obtain rfl := Except.ok.inj h
    cases hE : execnameOf env arg0 with
    | nil =>
      rw [hE] at h0
      exact absurd h0 (by decide)
    | cons b tl =>
      rw [hE] at h0
      have hb : b = '/' := h0
      rw [hb]
      exact List.mem_cons_self '/' tl
  · rw [if_neg h0] at h
    by_cases h1 : '/' ∈ execnameOf env arg0
    · rw [if_pos h1] at h
      by_cases h2 : env.pathconf_ok = false
      · rw [if_pos h2] at h
        exact absurd h (by simp)
      · rw [if_neg h2] at h
        cases hc : env.cwd with
        | none =>
          rw [hc] at h
          exact absurd h (by simp)
        | some curdir =>
          rw [hc] at h
          obtain rfl := Except.ok.inj h
          simp
    · rw [if_neg h1] at h
      cases hP : env.getenv pathVarName with
      | none =>
        simp only [hP] at h
        exact absurd h (by simp)
      | some pathstr =>
        simp only [hP] at h
        cases hS : searchPathLoop env.access_x_ok (execnameOf env arg0) pathstr with
        | none =>
          simp only [hS] at h
          exact absurd h (by simp)
        | some q =>
          simp only [hS] at h
          obtain rfl := Except.ok.inj h
          exact searchPathLoop_has_sep env.access_x_ok (execnameOf env arg0)
            pathstr _ hS
